import Mathlib

/-!
# ZeepinChain: native-contract value codec and the multi-signature signing tool

A shallow embedding of

* `smartcontract/service/native/utils/serialization.go`
  (`WriteVarUint`, `ReadVarUint`, `WriteAddress`, `ReadAddress`),
* `cmd/sigsvr/handlers/sig_raw_tx.go` (`SigRawTransaction`),
* `ztools.go` (`sigMultiRawTx`).

Conventions.  A byte is a natural number below 256 and a byte string is a
`List Nat`.  An `io.Reader` over an in-memory buffer is the list of bytes not
yet read; a read function returns what is left of it.  An `io.Writer` over an
in-memory buffer is the list of bytes written so far.  A Go `(value, error)`
pair is a Lean pair whose second component is `none` for a `nil` error.
Functions of other packages that the three files call are either modelled
from the specification (and say so) or taken as fields of an environment
structure.
-/

namespace ZeepinChain

/-- A byte string. -/
abbrev Bytes := List Nat

/-! ## Go built-ins and `math/big` -/

/-- Go conversion `int64(value)` of a `uint64`: the same 64 bits read as a
two's-complement signed integer. -/
def int64 (value : Nat) : Int :=
  if value % 2 ^ 64 < 2 ^ 63 then ((value % 2 ^ 64 : Nat) : Int)
  else ((value % 2 ^ 64 : Nat) : Int) - 2 ^ 64

/-- The method `(*big.Int).Uint64`: the low 64 bits of the magnitude. -/
def bigUint64 (v : Int) : Nat := v.natAbs % 2 ^ 64

/-- Little-endian base-256 digits of `n`, at most `fuel` of them. -/
def leDigits : Nat → Nat → Bytes
  | 0, _ => []
  | fuel + 1, n => if n = 0 then [] else (n % 256) :: leDigits fuel (n / 256)

/-- Little-endian base-256 digits of `n`, without trailing zero bytes
(`n` itself is enough fuel). -/
def leBytes (n : Nat) : Bytes := leDigits n n

/-- The number whose little-endian base-256 digits are `bs`. -/
def leValue : Bytes → Nat
  | [] => 0
  | b :: bs => b + 256 * leValue bs

/-- Exactly `k` little-endian bytes of `n`
(`binary.LittleEndian.PutUint16/32/64` for `k = 2, 4, 8`). -/
def leFixed : Nat → Nat → Bytes
  | 0, _ => []
  | k + 1, n => (n % 256) :: leFixed k (n / 256)

/-- Splits `n` bytes off the front of a reader, or fails when fewer than `n`
are left. -/
def readExact (n : Nat) (r : Bytes) : Option (Bytes × Bytes) :=
  if n ≤ r.length then some (r.take n, r.drop n) else none

/-! ## Package `vm/neovm/types` -/

namespace types

/-- Modelled from the spec: `types.BigIntToBytes` is not among the sources.
The spec calls its result "the minimal big-integer byte encoding" of a
"sign-capable" representation; it is taken here as the minimal two's-complement
encoding, least significant byte first, with zero encoded as the empty string.
A non-negative number gets an extra `0x00` byte when its top bit is set, so
that no non-negative number reads back as negative. -/
def BigIntToBytes (data : Int) : Bytes :=
  if data = 0 then []
  else if 0 < data then
    let bs := leBytes data.toNat
    if 128 ≤ bs.getLastD 0 then bs ++ [0] else bs
  else
    let bs := (leBytes (-data - 1).toNat).map (fun b => 255 - b)
    if 128 ≤ bs.getLastD 0 then bs else bs ++ [255]

/-- Modelled from the spec: `types.BigIntFromBytes` is not among the sources.
The inverse reading ("interpret as the arbitrary-precision integer"): the bytes
are a little-endian two's-complement number, negative exactly when the top bit
of the last byte is set; the empty string is zero. -/
def BigIntFromBytes (ba : Bytes) : Int :=
  if 128 ≤ ba.getLastD 0 then (leValue ba : Int) - 256 ^ ba.length
  else (leValue ba : Int)

end types

/-! ## Package `common/serialization` -/

namespace serialization

/-- Modelled from the spec: `serialization.WriteVarUint` is not among the
sources.  The "variable-length integer" used as a length prefix: one byte below
`0xFD`, else a marker byte `0xFD`, `0xFE` or `0xFF` followed by the value in 2,
4 or 8 little-endian bytes.  Returns the bytes it writes. -/
def WriteVarUint (value : Nat) : Bytes :=
  if value < 0xFD then [value]
  else if value ≤ 0xFFFF then 0xFD :: leFixed 2 value
  else if value ≤ 0xFFFFFFFF then 0xFE :: leFixed 4 value
  else 0xFF :: leFixed 8 value

/-- Modelled from the spec: `serialization.ReadVarUint` is not among the
sources.  Reads a variable-length integer and returns it with the rest of the
reader; fails when the reader runs out of bytes. -/
def ReadVarUint (r : Bytes) : Option (Nat × Bytes) :=
  match r with
  | [] => none
  | fb :: rest =>
    let width := if fb = 0xFD then 2 else if fb = 0xFE then 4 else if fb = 0xFF then 8 else 0
    if width = 0 then some (fb, rest)
    else match readExact width rest with
      | none => none
      | some (bs, rest') => some (leValue bs, rest')

/-- Modelled from the spec: `serialization.WriteVarBytes` is not among the
sources.  Writes `value` "prefixed by its length": the length as a
variable-length integer, then the bytes.  The writer is an in-memory buffer,
whose writes do not fail.  Returns the error and the writer. -/
def WriteVarBytes (w : Bytes) (value : Bytes) : Option String × Bytes :=
  (none, w ++ WriteVarUint value.length ++ value)

/-- Modelled from the spec: `serialization.ReadVarBytes` is not among the
sources.  "Read the length prefix, read that many bytes"; fails "if fewer bytes
are available than the prefix declares".  Returns the `([]byte, error)` pair
and the reader; a reader that ran out of bytes is left empty. -/
def ReadVarBytes (r : Bytes) : (Bytes × Option String) × Bytes :=
  match ReadVarUint r with
  | none => (([], some "Truncated"), [])
  | some (n, rest) =>
    match readExact n rest with
    | none => (([], some "Truncated"), [])
    | some (payload, rest') => ((payload, none), rest')

end serialization

/-! ## Package `common` -/

namespace common

/-- The constant `ADDR_LEN`. -/
def ADDR_LEN : Nat := 20

/-- The type `common.Address`, a `[20]byte` array. -/
abbrev Address := { bs : Bytes // bs.length = ADDR_LEN }

/-- The zero value `common.Address{}`. -/
def ADDRESS_EMPTY : Address := ⟨List.replicate 20 0, by simp [ADDR_LEN]⟩

/-- Modelled from the spec: `common.AddressParseFromBytes` is not among the
sources.  "Parse exactly 20 bytes into an Address; fails with
`MalformedAddress` on any other length." -/
def AddressParseFromBytes (f : Bytes) : Address × Option String :=
  if h : f.length = ADDR_LEN then (⟨f, h⟩, none)
  else (ADDRESS_EMPTY, some "MalformedAddress")

end common

/-! ## Package `smartcontract/service/native/utils` -/

namespace utils

/-- The functions of other packages that `serialization.go` calls.  A writing
function takes the writer and returns the error and the writer; a reading
function takes the reader and returns its Go result and the reader. -/
structure Env where
  /-- The function `serialization.WriteVarBytes`. -/
  WriteVarBytes : Bytes → Bytes → Option String × Bytes
  /-- The function `serialization.ReadVarBytes`. -/
  ReadVarBytes : Bytes → (Bytes × Option String) × Bytes
  /-- The function `types.BigIntToBytes`. -/
  BigIntToBytes : Int → Bytes
  /-- The function `types.BigIntFromBytes`. -/
  BigIntFromBytes : Bytes → Int
  /-- The function `common.AddressParseFromBytes`. -/
  AddressParseFromBytes : Bytes → common.Address × Option String

/-- The environment made of the functions modelled from the spec. -/
def specEnv : Env :=
  { WriteVarBytes := serialization.WriteVarBytes
    ReadVarBytes := serialization.ReadVarBytes
    BigIntToBytes := types.BigIntToBytes
    BigIntFromBytes := types.BigIntFromBytes
    AddressParseFromBytes := common.AddressParseFromBytes }

/-- The function `WriteVarUint` of `serialization.go`: the value goes through
`big.NewInt(int64(value))`, is turned into bytes by `types.BigIntToBytes` and
written length-prefixed.  Returns the error and the writer. -/
def WriteVarUint (env : Env) (w : Bytes) (value : Nat) : Option String × Bytes :=
  match env.WriteVarBytes w (env.BigIntToBytes (int64 value)) with
  | (some err, w') => (some ("serialize value error:" ++ err), w')
  | (none, w') => (none, w')

/-- The function `ReadVarUint` of `serialization.go`.  Returns the
`(uint64, error)` pair and the reader. -/
def ReadVarUint (env : Env) (r : Bytes) : (Nat × Option String) × Bytes :=
  match env.ReadVarBytes r with
  | ((_, some err), r') => ((0, some ("deserialize value error:" ++ err)), r')
  | ((value, none), r') =>
    let v := env.BigIntFromBytes value
    if v < 0 then ((0, some "value should not be a negative number."), r')
    else ((bigUint64 v, none), r')

/-- The function `WriteAddress` of `serialization.go`. -/
def WriteAddress (env : Env) (w : Bytes) (address : common.Address) : Option String × Bytes :=
  match env.WriteVarBytes w address.val with
  | (some err, w') => (some ("serialize value error:" ++ err), w')
  | (none, w') => (none, w')

/-- The function `ReadAddress` of `serialization.go`.  Returns the
`(common.Address, error)` pair and the reader. -/
def ReadAddress (env : Env) (r : Bytes) : (common.Address × Option String) × Bytes :=
  match env.ReadVarBytes r with
  | ((_, some err), r') =>
    ((common.ADDRESS_EMPTY, some ("[State] deserialize from error:" ++ err)), r')
  | ((from_, none), r') => (env.AddressParseFromBytes from_, r')

end utils

/-! ## Package `core/types`, `account` and `cmd/sigsvr/common` -/

/-- A serialized public key (`keypair.PublicKey` is an external type). -/
abbrev PublicKey := Bytes

/-- The type `types.Sig`, one signature entry of a transaction. -/
structure Sig where
  PubKeys : List PublicKey
  M : Nat
  SigData : List Bytes
  deriving DecidableEq, Repr

/-- Modelled from the spec: the declaration of `types.Transaction` is not among
the sources.  "`{ version, txType, payer: Address, body fields, sigs: ordered
sequence of SigEntry }`"; the body fields are kept as one byte string. -/
structure Transaction where
  Version : Nat
  TxType : Nat
  Payer : common.Address
  Body : Bytes
  Sigs : List Sig
  deriving DecidableEq, Repr

/-- The fields of `account.Account` that the signing code reads. -/
structure Account where
  Address : common.Address
  PublicKey : PublicKey
  PrivateKey : Bytes
  deriving DecidableEq, Repr

namespace clisvrcom

/-- The error codes of `cmd/sigsvr/common` used by the handlers; their numeric
values are not among the sources and are taken as parameters. -/
structure ErrorCodes where
  CLIERR_OK : Int
  CLIERR_INVALID_PARAMS : Int
  CLIERR_INVALID_TX : Int
  CLIERR_INTERNAL_ERR : Int

/-- The type `CliRpcRequest`. -/
structure CliRpcRequest where
  Qid : String
  Method : String
  Params : Bytes
  deriving DecidableEq, Repr

/-- The type `SigRawTransactionRsp` of `sig_raw_tx.go`, the only result the
handlers store in a response. -/
structure SigRawTransactionRsp where
  SignedTx : String
  deriving DecidableEq, Repr

/-- The type `CliRpcResponse`. -/
structure CliRpcResponse where
  ErrorCode : Int
  ErrorInfo : String
  Result : Option SigRawTransactionRsp
  deriving DecidableEq, Repr

end clisvrcom

open clisvrcom

/-! ## Package `cmd/sigsvr/handlers`: `SigRawTransaction` -/

namespace handlers

/-- The type `SigRawTransactionReq`. -/
structure SigRawTransactionReq where
  RawTx : String
  deriving DecidableEq, Repr

/-- The functions of other packages that `SigRawTransaction` calls.  `Hash` is
`rawTx.Hash().ToArray()` and is a function of the transaction as it stands
when called (the spec: "computed over the serialization of all fields except
`sigs`"). -/
structure Env where
  /-- The call `json.Unmarshal(req.Params, rawReq)`. -/
  Unmarshal : Bytes → Except String SigRawTransactionReq
  /-- The function `hex.DecodeString`. -/
  DecodeString : String → Except String Bytes
  /-- The method `(*types.Transaction).Deserialize` on a fresh transaction. -/
  Deserialize : Bytes → Except String Transaction
  /-- The method `(*types.Transaction).Hash`, as a byte array. -/
  Hash : Transaction → Bytes
  /-- The function `cliutil.Sign`. -/
  Sign : Bytes → Account → Except String Bytes
  /-- The method `(*types.Transaction).Serialize` into an empty buffer. -/
  Serialize : Transaction → Except String Bytes
  /-- The function `hex.EncodeToString`. -/
  EncodeToString : Bytes → String

/-- What one call of `SigRawTransaction` does: the response it leaves, the
calls of `cliutil.Sign` (data and signer) and the transactions handed to
`Serialize`, each in order. -/
structure Run where
  resp : CliRpcResponse
  signCalls : List (Bytes × Account)
  serializeCalls : List Transaction

/-- The handler `SigRawTransaction` of `sig_raw_tx.go`.  `DefAccount` is the global
`clisvrcom.DefAccount`; `resp` is the response object the caller passes in. -/
def SigRawTransaction (c : ErrorCodes) (env : Env) (DefAccount : Account)
    (req : CliRpcRequest) (resp : CliRpcResponse) : Run :=
  match env.Unmarshal req.Params with
  | .error _ => ⟨{ resp with ErrorCode := c.CLIERR_INVALID_PARAMS }, [], []⟩
  | .ok rawReq =>
  match env.DecodeString rawReq.RawTx with
  | .error _ => ⟨{ resp with ErrorCode := c.CLIERR_INVALID_PARAMS }, [], []⟩
  | .ok rawTxData =>
  match env.Deserialize rawTxData with
  | .error _ => ⟨{ resp with ErrorCode := c.CLIERR_INVALID_TX }, [], []⟩
  | .ok rawTx0 =>
  let signer := DefAccount
  let emptyAddress := common.ADDRESS_EMPTY
  let rawTx1 : Transaction :=
    if rawTx0.Payer = emptyAddress then { rawTx0 with Payer := signer.Address } else rawTx0
  let txHash := env.Hash rawTx1
  match env.Sign txHash signer with
  | .error _ => ⟨{ resp with ErrorCode := c.CLIERR_INTERNAL_ERR }, [(txHash, signer)], []⟩
  | .ok sigData =>
  let rawTx2 : Transaction :=
    if rawTx1.Sigs.length = 0 then { rawTx1 with Sigs := [] } else rawTx1
  let rawTx3 : Transaction :=
    { rawTx2 with Sigs := rawTx2.Sigs ++
        [{ PubKeys := [signer.PublicKey], M := 1, SigData := [sigData] }] }
  match env.Serialize rawTx3 with
  | .error _ =>
    ⟨{ resp with ErrorCode := c.CLIERR_INTERNAL_ERR }, [(txHash, signer)], [rawTx3]⟩
  | .ok buf =>
    ⟨{ resp with Result := some { SignedTx := env.EncodeToString buf } },
      [(txHash, signer)], [rawTx3]⟩

/-- The type `SigMutilRawTransactionReq`, as `sigMultiRawTx` fills it in. -/
structure SigMutilRawTransactionReq where
  RawTx : String
  M : Nat
  PubKeys : List String
  deriving DecidableEq, Repr

end handlers

/-! ## `ztools.go`: `sigMultiRawTx` -/

namespace ztools

/-- One entry of `toolsConfig.Wallet`. -/
structure WalletConfig where
  FilePath : String
  Passwd : String
  Address : String
  deriving DecidableEq, Repr

/-- The type `toolsConfig`. -/
structure toolsConfig where
  Asset : String
  Amount : Nat
  Wallet : List WalletConfig
  deriving DecidableEq, Repr

/-- The functions of other packages that `sigMultiRawTx` calls; `W` is the
type of an opened wallet. -/
structure Env (W : Type) where
  /-- The function `common.FileExisted`. -/
  FileExisted : String → Bool
  /-- The function `account.Open`. -/
  Open : String → Except String W
  /-- The function `cmdcom.GetAccountMulti` (wallet, password, address). -/
  GetAccountMulti : W → String → String → Except String Account
  /-- The function `keypair.SerializePublicKey`. -/
  SerializePublicKey : PublicKey → Bytes
  /-- The function `hex.EncodeToString`. -/
  EncodeToString : Bytes → String
  /-- The function `types.AddressFromMultiPubKeys`. -/
  AddressFromMultiPubKeys : List PublicKey → Nat → Except String common.Address
  /-- The method `Address.ToBase58`. -/
  ToBase58 : common.Address → String
  /-- The function `utils.TransferTx` (gas price, gas limit, asset, from, to,
  amount). -/
  TransferTx : Nat → Nat → String → String → String → Nat → Except String Transaction
  /-- The method `(*types.Transaction).Serialize` into an empty buffer. -/
  Serialize : Transaction → Except String Bytes
  /-- The call `json.Marshal(rawReq)`. -/
  Marshal : handlers.SigMutilRawTransactionReq → Except String Bytes
  /-- The handler `sighandler.SigMutilRawTransaction`, run with the global
  `clisvrcom.DefAccount` set to the given account on a fresh response; it only
  reads the request. -/
  SigMutilRawTransaction : Account → CliRpcRequest → CliRpcResponse

/-- How a Go function returning `error` ends: it returns (`none` is `nil`) or
panics. -/
inductive Outcome where
  | returned (err : Option String)
  | panicked (msg : String)
  deriving DecidableEq, Repr

/-- One invocation of the signing handler: the account in `DefAccount`, the
request passed and the response left. -/
structure Call where
  acct : Account
  req : CliRpcRequest
  resp : CliRpcResponse
  deriving DecidableEq, Repr

/-- What a run of `sigMultiRawTx` does: how it ends and the handler
invocations it made, in order. -/
structure Run where
  outcome : Outcome
  calls : List Call
  deriving DecidableEq, Repr

/-- The first loop of `sigMultiRawTx` (lines 48-67): opens every configured
wallet in order and collects the accounts; the first failure is returned. -/
def loadAccounts {W : Type} (env : Env W) : List WalletConfig → Except String (List Account)
  | [] => .ok []
  | walletFile :: rest =>
    if !env.FileExisted walletFile.FilePath then .error "Cannot find wallet file"
    else match env.Open walletFile.FilePath with
      | .error err => .error err
      | .ok wallet =>
        match env.GetAccountMulti wallet walletFile.Passwd walletFile.Address with
        | .error err => .error err
        | .ok acc =>
          match loadAccounts env rest with
          | .error err => .error err
          | .ok accs => .ok (acc :: accs)

/-- The threshold of `sigMultiRawTx` (line 69), `m := (5*len(pubKeys) + 6) / 7`,
as a function of the number of public keys.  A slice length is far below the
range where the `int` product could wrap. -/
def m (n : Nat) : Nat := (5 * n + 6) / 7

/-- The request that `sigMultiRawTx` builds once, before the signing loop
(lines 69-102), together with the account list; `.inl` is the outcome of an
early exit. -/
def buildRequest {W : Type} (env : Env W) (cfg : toolsConfig) :
    Outcome ⊕ (List Account × CliRpcRequest) :=
  match loadAccounts env cfg.Wallet with
  | .error err => .inl (.returned (some err))
  | .ok accountList =>
  let pubKeys := accountList.map (fun acc => acc.PublicKey)
  let spubKeys := accountList.map
    (fun acc => env.EncodeToString (env.SerializePublicKey acc.PublicKey))
  let m := m pubKeys.length
  match env.AddressFromMultiPubKeys pubKeys m with
  | .error err => .inl (.returned (some err))
  | .ok fromAddr =>
  match accountList with
  | [] => .inl (.panicked "index out of range")
  | defAcc :: _ =>
  match env.TransferTx 0 0 cfg.Asset (env.ToBase58 fromAddr) (env.ToBase58 defAcc.Address)
      cfg.Amount with
  | .error err => .inl (.returned (some err))
  | .ok tx =>
  match env.Serialize tx with
  | .error err => .inl (.returned (some err))
  | .ok buf =>
  let rawReq : handlers.SigMutilRawTransactionReq :=
    { RawTx := env.EncodeToString buf, M := m, PubKeys := spubKeys }
  match env.Marshal rawReq with
  | .error err => .inl (.returned (some err))
  | .ok data => .inr (accountList, { Qid := "q", Method := "sigmutilrawtx", Params := data })

/-- The signing loop of `sigMultiRawTx` (lines 103-113) over the accounts still
to sign: every account gets the request `req`; the first response whose error
code is not `CLIERR_OK` ends the run with an error. -/
def signLoop {W : Type} (c : ErrorCodes) (env : Env W) (req : CliRpcRequest) :
    List Account → Run
  | [] => ⟨.returned none, []⟩
  | acct :: rest =>
    let resp := env.SigMutilRawTransaction acct req
    if resp.ErrorCode ≠ c.CLIERR_OK then
      ⟨.returned (some "SigMutilRawTransaction failed"), [⟨acct, req, resp⟩]⟩
    else
      let r := signLoop c env req rest
      ⟨r.outcome, ⟨acct, req, resp⟩ :: r.calls⟩

/-- The function `sigMultiRawTx` of `ztools.go`: the request is built, then
the signing loop runs over the account list. -/
def sigMultiRawTx {W : Type} (c : ErrorCodes) (env : Env W) (cfg : toolsConfig) : Run :=
  match buildRequest env cfg with
  | .inl out => ⟨out, []⟩
  | .inr (accountList, req) => signLoop c env req accountList

end ztools

/-! ## Concrete data for evaluation -/

namespace demo

/-- Error codes with pairwise different values. -/
def codes : ErrorCodes :=
  { CLIERR_OK := 0, CLIERR_INVALID_PARAMS := 1003, CLIERR_INVALID_TX := 1006,
    CLIERR_INTERNAL_ERR := 900 }

/-- An account whose address, public key and private key are made of the
byte `k`. -/
def account (k : Nat) : Account :=
  { Address := ⟨List.replicate 20 k, by simp [common.ADDR_LEN]⟩, PublicKey := [2, k],
    PrivateKey := [k] }

/-- A fresh response object, `&CliRpcResponse{}`. -/
def freshResp : CliRpcResponse := { ErrorCode := 0, ErrorInfo := "", Result := none }

/-- A transaction with the given payer and signature list. -/
def tx (payer : common.Address) (sigs : List Sig) : Transaction :=
  { Version := 0, TxType := 209, Payer := payer, Body := [1, 2, 3], Sigs := sigs }

/-- A signature entry already on a transaction. -/
def oldSig : Sig := { PubKeys := [[2, 9]], M := 1, SigData := [[9, 9]] }

/-- Lower-case hexadecimal digit. -/
def hexDigit (n : Nat) : Char := if n < 10 then Char.ofNat (48 + n) else Char.ofNat (87 + n)

/-- Lower-case hexadecimal string of a byte string. -/
def hexString : Bytes → String
  | [] => ""
  | b :: bs => String.mk [hexDigit (b / 16), hexDigit (b % 16)] ++ hexString bs

/-- An environment for `SigRawTransaction` in which every request decodes to
the transaction `t`; the hash is the payer followed by the body, a signature
is the private key followed by the hash, and the serialization is the payer,
the body and the number of signature entries. -/
def sigEnv (t : Transaction) : handlers.Env :=
  { Unmarshal := fun _ => .ok { RawTx := "00" }
    DecodeString := fun _ => .ok [0]
    Deserialize := fun _ => .ok t
    Hash := fun x => x.Payer.val ++ x.Body
    Sign := fun h a => .ok (a.PrivateKey ++ h)
    Serialize := fun x => .ok (x.Payer.val ++ x.Body ++ [x.Sigs.length])
    EncodeToString := hexString }

/-- A request for `SigRawTransaction`. -/
def sigReq : CliRpcRequest := { Qid := "q", Method := "sigrawtx", Params := [] }

/-- An environment for `sigMultiRawTx`: the wallet of the entry with address
string of length `k` holds `account k`; the handler answers with error code 900
for the account `failAt` and otherwise with a signed transaction made of the
request bytes followed by the signer's private key. -/
def toolsEnv (failAt : Option Nat) : ztools.Env Nat :=
  { FileExisted := fun _ => true
    Open := fun path => .ok path.length
    GetAccountMulti := fun _ _ address => .ok (account address.length)
    SerializePublicKey := fun k => k
    EncodeToString := hexString
    AddressFromMultiPubKeys := fun keys m =>
      if 1 ≤ m ∧ m ≤ keys.length then
        .ok ⟨List.replicate 20 (16 * keys.length + m), by simp [common.ADDR_LEN]⟩
      else .error "wrong multi-sig param"
    ToBase58 := fun a => hexString a.val
    TransferTx := fun _ _ _ _ _ amount =>
      .ok { Version := 0, TxType := 209, Payer := common.ADDRESS_EMPTY, Body := [amount],
            Sigs := [] }
    Serialize := fun x => .ok (x.Body ++ [x.Sigs.length])
    Marshal := fun r => .ok (r.RawTx.toList.map Char.toNat ++ [r.M])
    SigMutilRawTransaction := fun acct req =>
      if some acct.PrivateKey = failAt.map (fun k => [k]) then
        { ErrorCode := 900, ErrorInfo := "sign failed", Result := none }
      else
        { ErrorCode := 0, ErrorInfo := "",
          Result := some { SignedTx := hexString (req.Params ++ acct.PrivateKey) } } }

/-- A configuration with the wallets of `account 1`, ..., `account n`. -/
def toolsCfg (n : Nat) : ztools.toolsConfig :=
  { Asset := "zpt", Amount := 10,
    Wallet := (List.range' 1 n).map fun k =>
      { FilePath := "wallet.dat", Passwd := "pw", Address := String.mk (List.replicate k 'a') } }

end demo

/-! ## The threshold of `sigMultiRawTx` -/

/-- C2 (as stated, refuted): the thresholds for `N = 1, ..., 7` keys are not
`1, 1, 1, 2, 2, 3, 5`; already two keys give the threshold 2. -/
theorem m_values_not_as_listed :
    ¬ ((List.range' 1 7).map ztools.m = [1, 1, 1, 2, 2, 3, 5]) := by
  decide

/-- C2 (amended): the thresholds `(5*N + 6) / 7` for `N = 1, ..., 7` keys are
`1, 2, 3, 3, 4, 5, 5`. -/
theorem m_values : (List.range' 1 7).map ztools.m = [1, 2, 3, 3, 4, 5, 5] := by
  decide

/-- C7: for `N ≥ 1` keys the threshold `(5*N + 6) / 7` is the ceiling of
`5*N/7`, it is the least `k` with `7*k ≥ 5*N`, and `1 ≤ m ≤ N`. -/
theorem m_is_ceil (N : Nat) (hN : 1 ≤ N) :
    ztools.m N = ⌈(5 * (N : ℚ)) / 7⌉₊ ∧
    5 * N ≤ 7 * ztools.m N ∧ (∀ k : Nat, 5 * N ≤ 7 * k → ztools.m N ≤ k) ∧
    1 ≤ ztools.m N ∧ ztools.m N ≤ N := by
  have h1 : 5 * N ≤ 7 * ztools.m N := by unfold ztools.m; omega
  have h2 : ∀ k : Nat, 5 * N ≤ 7 * k → ztools.m N ≤ k := by
    intro k hk; unfold ztools.m; omega
  have h3 : 1 ≤ ztools.m N := by unfold ztools.m; omega
  have h4 : ztools.m N ≤ N := by unfold ztools.m; omega
  refine ⟨?_, h1, h2, h3, h4⟩
  symm
  rw [Nat.ceil_eq_iff (by omega)]
  constructor
  · rw [lt_div_iff₀ (by norm_num)]
    have h5 : (ztools.m N - 1) * 7 < 5 * N := by unfold ztools.m; omega
    exact_mod_cast h5
  · rw [div_le_iff₀ (by norm_num)]
    exact_mod_cast (by omega : 5 * N ≤ ztools.m N * 7)

/-- C7 at seven keys: the threshold is 5. -/
theorem m_is_ceil_witness :
    ztools.m 7 = ⌈(5 * ((7 : Nat) : ℚ)) / 7⌉₊ ∧
    5 * 7 ≤ 7 * ztools.m 7 ∧ (∀ k : Nat, 5 * 7 ≤ 7 * k → ztools.m 7 ≤ k) ∧
    1 ≤ ztools.m 7 ∧ ztools.m 7 ≤ 7 :=
  m_is_ceil 7 (by decide)

/-! ## `SigRawTransaction` -/

/-- Resolving the payer as `SigRawTransaction` does (lines 62-65) gives the
decoded transaction with the payer field replaced. -/
theorem payer_resolved (signer : Account) (tx : Transaction) (payer : common.Address)
    (hp : payer = if tx.Payer = common.ADDRESS_EMPTY then signer.Address else tx.Payer) :
    (if tx.Payer = common.ADDRESS_EMPTY then { tx with Payer := signer.Address } else tx)
      = { tx with Payer := payer } := by
  subst hp
  split <;> rfl

/-- Making an empty signature list before appending (lines 74-76) changes
nothing. -/
theorem sigs_made_when_empty (tx : Transaction) (payer : common.Address) :
    (if tx.Sigs.length = 0 then ({ tx with Payer := payer, Sigs := [] } : Transaction)
      else { tx with Payer := payer }) = { tx with Payer := payer } := by
  split
  · rename_i h0
    rw [List.length_eq_zero] at h0
    cases tx
    simp_all
  · rfl

/-- C4: when the request decodes to `tx`, let `payer` be the signer's address
if the decoded payer is the zero address and the decoded payer otherwise.
`SigRawTransaction` calls the signing primitive exactly once, on the hash of
`tx` with that payer (all other fields as decoded), and every transaction it
serializes has that same payer; after a successful signing it serializes
exactly one transaction, `tx` with that payer and the new signature entry, and
the response it returns carries as `SignedTx` the hex string of the
serialization of that very transaction (or the internal error code when the
serialization fails); after a failed signing nothing is serialized and the
response carries the internal error code. -/
theorem SigRawTransaction_payer_before_hash (c : ErrorCodes) (env : handlers.Env)
    (signer : Account) (req : CliRpcRequest) (resp : CliRpcResponse)
    (rawReq : handlers.SigRawTransactionReq) (data : Bytes) (tx : Transaction)
    (payer : common.Address)
    (h1 : env.Unmarshal req.Params = .ok rawReq)
    (h2 : env.DecodeString rawReq.RawTx = .ok data)
    (h3 : env.Deserialize data = .ok tx)
    (hp : payer = if tx.Payer = common.ADDRESS_EMPTY then signer.Address else tx.Payer) :
    (handlers.SigRawTransaction c env signer req resp).signCalls =
      [(env.Hash { tx with Payer := payer }, signer)] ∧
    (∀ t ∈ (handlers.SigRawTransaction c env signer req resp).serializeCalls,
      t.Payer = payer ∧ t.Version = tx.Version ∧ t.TxType = tx.TxType ∧ t.Body = tx.Body) ∧
    (∀ sigData, env.Sign (env.Hash { tx with Payer := payer }) signer = .ok sigData →
      (handlers.SigRawTransaction c env signer req resp).serializeCalls.length = 1) ∧
    (∀ sigData, env.Sign (env.Hash { tx with Payer := payer }) signer = .ok sigData →
      (handlers.SigRawTransaction c env signer req resp).serializeCalls =
        [{ tx with Payer := payer, Sigs := tx.Sigs ++
            [{ PubKeys := [signer.PublicKey], M := 1, SigData := [sigData] }] }] ∧
      (∀ buf, env.Serialize { tx with Payer := payer, Sigs := tx.Sigs ++
            [{ PubKeys := [signer.PublicKey], M := 1, SigData := [sigData] }] } = .ok buf →
        (handlers.SigRawTransaction c env signer req resp).resp =
          { resp with Result := some { SignedTx := env.EncodeToString buf } }) ∧
      (∀ err, env.Serialize { tx with Payer := payer, Sigs := tx.Sigs ++
            [{ PubKeys := [signer.PublicKey], M := 1, SigData := [sigData] }] } = .error err →
        (handlers.SigRawTransaction c env signer req resp).resp =
          { resp with ErrorCode := c.CLIERR_INTERNAL_ERR })) ∧
    (∀ err, env.Sign (env.Hash { tx with Payer := payer }) signer = .error err →
      (handlers.SigRawTransaction c env signer req resp).serializeCalls = [] ∧
      (handlers.SigRawTransaction c env signer req resp).resp =
        { resp with ErrorCode := c.CLIERR_INTERNAL_ERR }) := by
  have hr := payer_resolved signer tx payer hp
  have hm := sigs_made_when_empty tx payer
  refine ⟨?_, ?_, ?_, ?_, ?_⟩
  · simp only [handlers.SigRawTransaction, h1, h2, h3, hr]
    cases env.Sign (env.Hash { tx with Payer := payer }) signer with
    | error e => rfl
    | ok sigData =>
      simp only []
      split <;> rfl
  · intro t ht
    simp only [handlers.SigRawTransaction, h1, h2, h3, hr] at ht
    cases hs : env.Sign (env.Hash { tx with Payer := payer }) signer with
    | error e => simp [hs] at ht
    | ok sigData =>
      simp only [hs] at ht
      split at ht <;> simp at ht <;> subst ht <;> split <;> simp
  · intro sigData hs
    simp only [handlers.SigRawTransaction, h1, h2, h3, hr, hs]
    split <;> rfl
  · intro sigData hs
    refine ⟨?_, ?_, ?_⟩
    · simp only [handlers.SigRawTransaction, h1, h2, h3, hr, hs, hm]
      split <;> rfl
    · intro buf hb
      simp only [handlers.SigRawTransaction, h1, h2, h3, hr, hs, hm, hb]
    · intro err hb
      simp only [handlers.SigRawTransaction, h1, h2, h3, hr, hs, hm, hb]
  · intro err hs
    constructor <;> simp only [handlers.SigRawTransaction, h1, h2, h3, hr, hs]

/-- C4 on a request whose transaction has the zero payer, and on one whose
payer is set: the signer `demo.account 7` signs the hash of the transaction
with payer `demo.account 7` in the first case and with the decoded payer in
the second, and the signed transaction in the response starts with the twenty
bytes of that payer. -/
theorem SigRawTransaction_payer_before_hash_witness :
    ((handlers.SigRawTransaction demo.codes (demo.sigEnv (demo.tx common.ADDRESS_EMPTY []))
        (demo.account 7) demo.sigReq demo.freshResp).signCalls =
      [((demo.sigEnv (demo.tx common.ADDRESS_EMPTY [])).Hash
          { demo.tx common.ADDRESS_EMPTY [] with Payer := (demo.account 7).Address },
        demo.account 7)]) ∧
    ((handlers.SigRawTransaction demo.codes (demo.sigEnv (demo.tx common.ADDRESS_EMPTY []))
        (demo.account 7) demo.sigReq demo.freshResp).resp =
      { ErrorCode := 0, ErrorInfo := "",
        Result := some
          { SignedTx := "070707070707070707070707070707070707070701020301" } }) ∧
    ((handlers.SigRawTransaction demo.codes
        (demo.sigEnv (demo.tx (demo.account 5).Address [demo.oldSig]))
        (demo.account 7) demo.sigReq demo.freshResp).signCalls =
      [((demo.sigEnv (demo.tx (demo.account 5).Address [demo.oldSig])).Hash
          (demo.tx (demo.account 5).Address [demo.oldSig]), demo.account 7)]) ∧
    ((handlers.SigRawTransaction demo.codes
        (demo.sigEnv (demo.tx (demo.account 5).Address [demo.oldSig]))
        (demo.account 7) demo.sigReq demo.freshResp).resp =
      { ErrorCode := 0, ErrorInfo := "",
        Result := some
          { SignedTx := "050505050505050505050505050505050505050501020302" } }) := by
  have hz := SigRawTransaction_payer_before_hash demo.codes
    (demo.sigEnv (demo.tx common.ADDRESS_EMPTY []))
    (demo.account 7) demo.sigReq demo.freshResp { RawTx := "00" } [0]
    (demo.tx common.ADDRESS_EMPTY []) (demo.account 7).Address rfl rfl rfl (by decide)
  have hs := SigRawTransaction_payer_before_hash demo.codes
    (demo.sigEnv (demo.tx (demo.account 5).Address [demo.oldSig]))
    (demo.account 7) demo.sigReq demo.freshResp { RawTx := "00" } [0]
    (demo.tx (demo.account 5).Address [demo.oldSig]) (demo.account 5).Address
    rfl rfl rfl (by decide)
  refine ⟨hz.1, ?_, hs.1, ?_⟩
  · rw [(hz.2.2.2.1 (7 :: (List.replicate 20 7 ++ [1, 2, 3])) rfl).2.1
      (List.replicate 20 7 ++ [1, 2, 3] ++ [1]) rfl]
    decide
  · rw [(hs.2.2.2.1 (7 :: (List.replicate 20 5 ++ [1, 2, 3])) rfl).2.1
      (List.replicate 20 5 ++ [1, 2, 3] ++ [2]) rfl]
    decide

/-- C5: when the request decodes to `tx` and signing succeeds with `sigData`,
`SigRawTransaction` serializes exactly one transaction; its signature list is
the decoded list followed by the one entry `([signer.PublicKey], 1, [sigData])`
(that entry alone when the decoded list is empty), and on a successful
serialization the response carries the hex string of those bytes. -/
theorem SigRawTransaction_appends_one_entry (c : ErrorCodes) (env : handlers.Env)
    (signer : Account) (req : CliRpcRequest) (resp : CliRpcResponse)
    (rawReq : handlers.SigRawTransactionReq) (data : Bytes) (tx : Transaction)
    (payer : common.Address) (sigData : Bytes)
    (h1 : env.Unmarshal req.Params = .ok rawReq)
    (h2 : env.DecodeString rawReq.RawTx = .ok data)
    (h3 : env.Deserialize data = .ok tx)
    (hp : payer = if tx.Payer = common.ADDRESS_EMPTY then signer.Address else tx.Payer)
    (h4 : env.Sign (env.Hash { tx with Payer := payer }) signer = .ok sigData) :
    ∃ t : Transaction,
      (handlers.SigRawTransaction c env signer req resp).serializeCalls = [t] ∧
      t.Sigs = tx.Sigs ++ [{ PubKeys := [signer.PublicKey], M := 1, SigData := [sigData] }] ∧
      (tx.Sigs = [] →
        t.Sigs = [{ PubKeys := [signer.PublicKey], M := 1, SigData := [sigData] }]) ∧
      (∀ buf, env.Serialize t = .ok buf →
        (handlers.SigRawTransaction c env signer req resp).resp.Result =
          some { SignedTx := env.EncodeToString buf }) := by
  have hr := payer_resolved signer tx payer hp
  refine ⟨{ tx with Payer := payer, Sigs := tx.Sigs ++
      [{ PubKeys := [signer.PublicKey], M := 1, SigData := [sigData] }] }, ?_, rfl, ?_, ?_⟩
  · simp only [handlers.SigRawTransaction, h1, h2, h3, hr, h4]
    have hs : (if tx.Sigs.length = 0 then
          ({ tx with Payer := payer, Sigs := [] } : Transaction)
        else { tx with Payer := payer }) = { tx with Payer := payer } := by
      split
      · rename_i h0
        rw [List.length_eq_zero] at h0
        cases tx
        simp_all
      · rfl
    simp only [hs]
    split <;> rfl
  · intro h0
    simp [h0]
  · intro buf hb
    simp only [handlers.SigRawTransaction, h1, h2, h3, hr, h4]
    have hs : (if tx.Sigs.length = 0 then
          ({ tx with Payer := payer, Sigs := [] } : Transaction)
        else { tx with Payer := payer }) = { tx with Payer := payer } := by
      split
      · rename_i h0
        rw [List.length_eq_zero] at h0
        cases tx
        simp_all
      · rfl
    simp only [hs, hb]

/-- C5 on a transaction that already carries one signature entry: the
serialized transaction carries that entry followed by the new one. -/
theorem SigRawTransaction_appends_one_entry_witness :
    ∃ t : Transaction,
      (handlers.SigRawTransaction demo.codes
        (demo.sigEnv (demo.tx (demo.account 5).Address [demo.oldSig]))
        (demo.account 7) demo.sigReq demo.freshResp).serializeCalls = [t] ∧
      t.Sigs = [demo.oldSig,
        { PubKeys := [[2, 7]], M := 1, SigData := [7 :: (List.replicate 20 5 ++ [1, 2, 3])] }] :=
  (SigRawTransaction_appends_one_entry demo.codes
      (demo.sigEnv (demo.tx (demo.account 5).Address [demo.oldSig]))
      (demo.account 7) demo.sigReq demo.freshResp { RawTx := "00" } [0]
      (demo.tx (demo.account 5).Address [demo.oldSig]) (demo.account 5).Address
      (7 :: (List.replicate 20 5 ++ [1, 2, 3])) rfl rfl rfl (by decide) rfl).imp
    (fun _ h => ⟨h.1, h.2.1⟩)

/-! ## The signing loop of `sigMultiRawTx` -/

/-- The signing loop never panics, passes the one request `req` to every
handler invocation, and records the handler's answer to it. -/
theorem signLoop_calls {W : Type} (c : ErrorCodes) (env : ztools.Env W) (req : CliRpcRequest)
    (accts : List Account) :
    ∀ call ∈ (ztools.signLoop c env req accts).calls,
      call.req = req ∧ call.resp = env.SigMutilRawTransaction call.acct req := by
  induction accts with
  | nil => intro call h; simp [ztools.signLoop] at h
  | cons a rest ih =>
    intro call h
    simp only [ztools.signLoop] at h
    split at h
    · simp at h; subst h; exact ⟨rfl, rfl⟩
    · simp only [List.mem_cons] at h
      rcases h with h | h
      · subst h; exact ⟨rfl, rfl⟩
      · exact ih call h

/-- When the handler's answer to the account at index `k` is the first with an
error code other than `CLIERR_OK`, the loop returns the error and has invoked
the handler for the accounts at indices `0..k`, in order, and no other. -/
theorem signLoop_first_failure {W : Type} (c : ErrorCodes) (env : ztools.Env W)
    (req : CliRpcRequest) (accts : List Account) :
    ∀ (k : Nat) (ak : Account), accts[k]? = some ak →
      (∀ j a, j < k → accts[j]? = some a →
        (env.SigMutilRawTransaction a req).ErrorCode = c.CLIERR_OK) →
      (env.SigMutilRawTransaction ak req).ErrorCode ≠ c.CLIERR_OK →
      (ztools.signLoop c env req accts).outcome =
          .returned (some "SigMutilRawTransaction failed") ∧
        (ztools.signLoop c env req accts).calls.map (fun call => call.acct) =
          accts.take (k + 1) := by
  induction accts with
  | nil => intro k ak h; simp at h
  | cons a rest ih =>
    intro k ak hk hprev hfail
    cases k with
    | zero =>
      simp at hk
      subst hk
      simp [ztools.signLoop, hfail]
    | succ k =>
      have ha : (env.SigMutilRawTransaction a req).ErrorCode = c.CLIERR_OK :=
        hprev 0 a (Nat.succ_pos k) (by simp)
      have hk' : rest[k]? = some ak := by simpa using hk
      have := ih k ak hk' (fun j b hj hb => hprev (j + 1) b (by omega) (by simpa using hb)) hfail
      simp [ztools.signLoop, ha, this.1, this.2]

/-- The loop returns `nil` exactly when the handler's answer to every account
has the error code `CLIERR_OK`; it has then invoked the handler for every
account, in order. -/
theorem signLoop_success {W : Type} (c : ErrorCodes) (env : ztools.Env W)
    (req : CliRpcRequest) (accts : List Account) :
    ((ztools.signLoop c env req accts).outcome = .returned none ↔
      ∀ a ∈ accts, (env.SigMutilRawTransaction a req).ErrorCode = c.CLIERR_OK) ∧
    ((ztools.signLoop c env req accts).outcome = .returned none →
      (ztools.signLoop c env req accts).calls.map (fun call => call.acct) = accts) := by
  induction accts with
  | nil => simp [ztools.signLoop]
  | cons a rest ih =>
    by_cases ha : (env.SigMutilRawTransaction a req).ErrorCode = c.CLIERR_OK
    · simp [ztools.signLoop, ha, ih.1]
      intro h
      exact ih.2 (ih.1.2 h)
    · simp [ztools.signLoop, ha]

/-- What `sigMultiRawTx` has done when it reaches the signing loop: all
wallets were opened, the multi-signature address was derived from the public
keys and the threshold, the transfer transaction was built with the first
account as recipient and serialized, and the request carries the marshalled
`SigMutilRawTransactionReq` holding the hex string of those bytes. -/
theorem buildRequest_inr {W : Type} (env : ztools.Env W) (cfg : ztools.toolsConfig)
    (accountList : List Account) (req : CliRpcRequest)
    (h : ztools.buildRequest env cfg = .inr (accountList, req)) :
    ztools.loadAccounts env cfg.Wallet = .ok accountList ∧
    ∃ fromAddr defAcc tx buf data,
      env.AddressFromMultiPubKeys (accountList.map fun acc => acc.PublicKey)
        (ztools.m accountList.length) = .ok fromAddr ∧
      accountList.head? = some defAcc ∧
      env.TransferTx 0 0 cfg.Asset (env.ToBase58 fromAddr) (env.ToBase58 defAcc.Address)
        cfg.Amount = .ok tx ∧
      env.Serialize tx = .ok buf ∧
      env.Marshal { RawTx := env.EncodeToString buf, M := ztools.m accountList.length,
                    PubKeys := accountList.map fun acc =>
                      env.EncodeToString (env.SerializePublicKey acc.PublicKey) } = .ok data ∧
      req = { Qid := "q", Method := "sigmutilrawtx", Params := data } := by
  unfold ztools.buildRequest at h
  cases hl : ztools.loadAccounts env cfg.Wallet with
  | error e => simp [hl] at h
  | ok accs =>
    simp only [hl, List.length_map] at h
    cases ha : env.AddressFromMultiPubKeys (accs.map fun acc => acc.PublicKey)
        (ztools.m accs.length) with
    | error e => simp [ha] at h
    | ok fromAddr =>
      simp only [ha] at h
      cases accs with
      | nil => simp at h
      | cons defAcc rest =>
        simp only at h
        cases ht : env.TransferTx 0 0 cfg.Asset (env.ToBase58 fromAddr)
            (env.ToBase58 defAcc.Address) cfg.Amount with
        | error e => simp [ht] at h
        | ok tx =>
          simp only [ht] at h
          cases hs : env.Serialize tx with
          | error e => simp [hs] at h
          | ok buf =>
            simp only [hs] at h
            split at h
            · simp at h
            · rename_i data hm
              simp only [Sum.inr.injEq, Prod.mk.injEq] at h
              obtain ⟨h1, h2⟩ := h
              subst h1 h2
              exact ⟨rfl, fromAddr, defAcc, tx, buf, data, ha, rfl, ht, hs, hm, rfl⟩

/-- An early exit of `sigMultiRawTx` is an error or a panic, never `nil`. -/
theorem buildRequest_inl {W : Type} (env : ztools.Env W) (cfg : ztools.toolsConfig)
    (out : ztools.Outcome) (h : ztools.buildRequest env cfg = .inl out) :
    out ≠ .returned none := by
  unfold ztools.buildRequest at h
  cases hl : ztools.loadAccounts env cfg.Wallet with
  | error e => simp [hl] at h; subst h; simp
  | ok accs =>
    simp only [hl, List.length_map] at h
    cases ha : env.AddressFromMultiPubKeys (accs.map fun acc => acc.PublicKey)
        (ztools.m accs.length) with
    | error e => simp [ha] at h; subst h; simp
    | ok fromAddr =>
      simp only [ha] at h
      cases accs with
      | nil => simp at h; subst h; simp
      | cons defAcc rest =>
        simp only at h
        cases ht : env.TransferTx 0 0 cfg.Asset (env.ToBase58 fromAddr)
            (env.ToBase58 defAcc.Address) cfg.Amount with
        | error e => simp [ht] at h; subst h; simp
        | ok tx =>
          simp only [ht] at h
          cases hs : env.Serialize tx with
          | error e => simp [hs] at h; subst h; simp
          | ok buf =>
            simp only [hs] at h
            split at h
            · simp at h; subst h; simp
            · simp at h

/-- C6: in a run of `sigMultiRawTx` that reaches the signing loop with the
accounts `accountList` and the request `req`, if the answer to the account at
index `k` is the first whose error code is not `CLIERR_OK`, the run returns an
error and the handler has been invoked for the accounts at indices `0..k`, in
order, and for no other; and a run returns `nil` only if it reached the loop
and the answer to every account had the error code `CLIERR_OK`. -/
theorem sigMultiRawTx_stops_at_first_failure {W : Type} (c : ErrorCodes) (env : ztools.Env W)
    (cfg : ztools.toolsConfig) :
    (∀ accountList req k ak, ztools.buildRequest env cfg = .inr (accountList, req) →
      accountList[k]? = some ak →
      (∀ j a, j < k → accountList[j]? = some a →
        (env.SigMutilRawTransaction a req).ErrorCode = c.CLIERR_OK) →
      (env.SigMutilRawTransaction ak req).ErrorCode ≠ c.CLIERR_OK →
      (ztools.sigMultiRawTx c env cfg).outcome =
          .returned (some "SigMutilRawTransaction failed") ∧
        (ztools.sigMultiRawTx c env cfg).calls.map (fun call => call.acct) =
          accountList.take (k + 1)) ∧
    ((ztools.sigMultiRawTx c env cfg).outcome = .returned none →
      ∃ accountList req, ztools.buildRequest env cfg = .inr (accountList, req) ∧
        ztools.loadAccounts env cfg.Wallet = .ok accountList ∧
        (∀ a ∈ accountList, (env.SigMutilRawTransaction a req).ErrorCode = c.CLIERR_OK) ∧
        (ztools.sigMultiRawTx c env cfg).calls.map (fun call => call.acct) = accountList) := by
  constructor
  · intro accountList req k ak hb hk hprev hfail
    simp only [ztools.sigMultiRawTx, hb]
    exact signLoop_first_failure c env req accountList k ak hk hprev hfail
  · intro hout
    cases hb : ztools.buildRequest env cfg with
    | inl out =>
      simp only [ztools.sigMultiRawTx, hb] at hout
      exact absurd hout (buildRequest_inl env cfg out hb)
    | inr p =>
      obtain ⟨accountList, req⟩ := p
      simp only [ztools.sigMultiRawTx, hb] at hout ⊢
      have hs := signLoop_success c env req accountList
      exact ⟨accountList, req, rfl, (buildRequest_inr env cfg accountList req hb).1,
        hs.1.1 hout, hs.2 hout⟩

/-- C6 with seven configured wallets and a handler that fails for the fourth
account (index 3): the run returns the error and the handler has been invoked
for the first four accounts only. -/
theorem sigMultiRawTx_stops_at_first_failure_witness :
    (ztools.sigMultiRawTx demo.codes (demo.toolsEnv (some 4)) (demo.toolsCfg 7)).outcome =
        .returned (some "SigMutilRawTransaction failed") ∧
      (ztools.sigMultiRawTx demo.codes (demo.toolsEnv (some 4)) (demo.toolsCfg 7)).calls.map
          (fun call => call.acct) =
        ((List.range' 1 7).map demo.account).take (3 + 1) :=
  (sigMultiRawTx_stops_at_first_failure demo.codes (demo.toolsEnv (some 4)) (demo.toolsCfg 7)).1
    ((List.range' 1 7).map demo.account)
    { Qid := "q", Method := "sigmutilrawtx", Params := [48, 97, 48, 48, 5] } 3 (demo.account 4)
    (by decide) (by decide)
    (by
      intro j a hj h
      have hj3 : j = 0 ∨ j = 1 ∨ j = 2 := by omega
      rcases hj3 with rfl | rfl | rfl
      · obtain rfl : demo.account 1 = a := Option.some.inj h
        decide
      · obtain rfl : demo.account 2 = a := Option.some.inj h
        decide
      · obtain rfl : demo.account 3 = a := Option.some.inj h
        decide)
    (by decide)

/-- C3 (as stated, refuted): with two configured wallets and a handler that
always succeeds, it is not the case that the request given to the next signer
carries the signed transaction returned for the signer before: the second
signer's request does not hold the first response's `SignedTx`. -/
theorem sigMultiRawTx_next_request_not_signed :
    ¬ (∀ i c0 c1,
        (ztools.sigMultiRawTx demo.codes (demo.toolsEnv none) (demo.toolsCfg 2)).calls[i]? =
          some c0 →
        (ztools.sigMultiRawTx demo.codes (demo.toolsEnv none) (demo.toolsCfg 2)).calls[i + 1]? =
          some c1 →
        ∃ rsp, c0.resp.Result = some rsp ∧
          (demo.toolsEnv none).Marshal
            { RawTx := rsp.SignedTx, M := ztools.m 2, PubKeys := ["0201", "0202"] } =
              .ok c1.req.Params) := by
  intro h
  obtain ⟨rsp, h1, h2⟩ := h 0
    ⟨demo.account 1, { Qid := "q", Method := "sigmutilrawtx", Params := [48, 97, 48, 48, 2] },
      { ErrorCode := 0, ErrorInfo := "", Result := some { SignedTx := "306130300201" } }⟩
    ⟨demo.account 2, { Qid := "q", Method := "sigmutilrawtx", Params := [48, 97, 48, 48, 2] },
      { ErrorCode := 0, ErrorInfo := "", Result := some { SignedTx := "306130300202" } }⟩
    (by decide) (by decide)
  cases h1
  have h3 : ("306130300201".toList.map Char.toNat ++ [ztools.m 2] : Bytes) =
      [48, 97, 48, 48, 2] := Except.ok.inj h2
  revert h3
  decide

/-- C3 (amended): in a run of `sigMultiRawTx` that reaches the signing loop,
the request `req` is built once from the serialized transfer transaction as
`TransferTx` returned it, and every handler invocation of the run receives
that same `req`; the response of an invocation is the handler's answer to
`req` for that account and is not passed on. -/
theorem sigMultiRawTx_same_request_for_all {W : Type} (c : ErrorCodes) (env : ztools.Env W)
    (cfg : ztools.toolsConfig) (accountList : List Account) (req : CliRpcRequest)
    (h : ztools.buildRequest env cfg = .inr (accountList, req)) :
    (∃ fromAddr defAcc tx buf,
      accountList.head? = some defAcc ∧
      env.TransferTx 0 0 cfg.Asset (env.ToBase58 fromAddr) (env.ToBase58 defAcc.Address)
        cfg.Amount = .ok tx ∧
      env.Serialize tx = .ok buf ∧
      env.Marshal { RawTx := env.EncodeToString buf, M := ztools.m accountList.length,
                    PubKeys := accountList.map fun acc =>
                      env.EncodeToString (env.SerializePublicKey acc.PublicKey) } =
        .ok req.Params) ∧
    (∀ call ∈ (ztools.sigMultiRawTx c env cfg).calls,
      call.req = req ∧ call.resp = env.SigMutilRawTransaction call.acct req) := by
  constructor
  · obtain ⟨_, fromAddr, defAcc, tx, buf, data, _, hd, ht, hs, hm, hreq⟩ :=
      buildRequest_inr env cfg accountList req h
    subst hreq
    exact ⟨fromAddr, defAcc, tx, buf, hd, ht, hs, hm⟩
  · simp only [ztools.sigMultiRawTx, h]
    exact signLoop_calls c env req accountList

/-- C3 (amended) with two configured wallets: both signers receive the request
holding the unsigned transaction. -/
theorem sigMultiRawTx_same_request_for_all_witness :
    (∃ fromAddr defAcc tx buf,
      ((List.range' 1 2).map demo.account).head? = some defAcc ∧
      (demo.toolsEnv none).TransferTx 0 0 (demo.toolsCfg 2).Asset
        ((demo.toolsEnv none).ToBase58 fromAddr)
        ((demo.toolsEnv none).ToBase58 defAcc.Address) (demo.toolsCfg 2).Amount = .ok tx ∧
      (demo.toolsEnv none).Serialize tx = .ok buf ∧
      (demo.toolsEnv none).Marshal
        { RawTx := (demo.toolsEnv none).EncodeToString buf,
          M := ztools.m ((List.range' 1 2).map demo.account).length,
          PubKeys := ((List.range' 1 2).map demo.account).map fun acc =>
            (demo.toolsEnv none).EncodeToString
              ((demo.toolsEnv none).SerializePublicKey acc.PublicKey) } =
        .ok [48, 97, 48, 48, 2]) ∧
    (∀ call ∈ (ztools.sigMultiRawTx demo.codes (demo.toolsEnv none) (demo.toolsCfg 2)).calls,
      call.req = { Qid := "q", Method := "sigmutilrawtx", Params := [48, 97, 48, 48, 2] } ∧
      call.resp = (demo.toolsEnv none).SigMutilRawTransaction call.acct
        { Qid := "q", Method := "sigmutilrawtx", Params := [48, 97, 48, 48, 2] }) :=
  sigMultiRawTx_same_request_for_all demo.codes (demo.toolsEnv none) (demo.toolsCfg 2)
    ((List.range' 1 2).map demo.account)
    { Qid := "q", Method := "sigmutilrawtx", Params := [48, 97, 48, 48, 2] } (by decide)

/-! ## The helper codecs modelled from the spec -/

/-- Reading the little-endian digits of `n` gives `n` back. -/
theorem leValue_leDigits (fuel : Nat) : ∀ n, n ≤ fuel → leValue (leDigits fuel n) = n := by
  induction fuel with
  | zero => intro n hn; simp [Nat.le_zero.mp hn, leDigits, leValue]
  | succ f ih =>
    intro n hn
    by_cases h0 : n = 0
    · simp [h0, leDigits, leValue]
    · have hdiv : n / 256 ≤ f := by omega
      simp only [leDigits, h0, if_false, leValue, ih (n / 256) hdiv]
      omega

/-- Every digit is a byte. -/
theorem leDigits_lt (fuel : Nat) : ∀ n, ∀ b ∈ leDigits fuel n, b < 256 := by
  induction fuel with
  | zero => intro n b hb; simp [leDigits] at hb
  | succ f ih =>
    intro n b hb
    by_cases h0 : n = 0
    · simp [h0, leDigits] at hb
    · simp only [leDigits, h0, if_false, List.mem_cons] at hb
      rcases hb with hb | hb
      · omega
      · exact ih _ b hb

/-- A number below `256 ^ k` has at most `k` digits. -/
theorem leDigits_length (k : Nat) : ∀ fuel n, n < 256 ^ k → (leDigits fuel n).length ≤ k := by
  induction k with
  | zero =>
    intro fuel n hn
    have h0 : n = 0 := by simpa using hn
    cases fuel <;> simp [h0, leDigits]
  | succ k ih =>
    intro fuel n hn
    cases fuel with
    | zero => simp [leDigits]
    | succ f =>
      by_cases h0 : n = 0
      · simp [h0, leDigits]
      · have hdiv : n / 256 < 256 ^ k := by
          apply Nat.div_lt_of_lt_mul
          rw [pow_succ] at hn
          omega
        simp only [leDigits, h0, if_false, List.length_cons]
        exact Nat.succ_le_succ (ih f _ hdiv)

/-- The value of a concatenation. -/
theorem leValue_append (bs cs : Bytes) :
    leValue (bs ++ cs) = leValue bs + 256 ^ bs.length * leValue cs := by
  induction bs with
  | nil => simp [leValue]
  | cons b bs ih =>
    show leValue (b :: (bs ++ cs)) = _
    simp only [leValue, ih, List.length_cons, pow_succ]
    ring

/-- A string of bytes is worth less than `256 ^ length`. -/
theorem leValue_lt (bs : Bytes) (h : ∀ b ∈ bs, b < 256) : leValue bs < 256 ^ bs.length := by
  induction bs with
  | nil => simp [leValue]
  | cons b bs ih =>
    have hb : b < 256 := h b (List.mem_cons_self _ _)
    have ih' := ih (fun x hx => h x (List.mem_cons_of_mem _ hx))
    simp only [leValue, List.length_cons, pow_succ]
    omega

/-- Complementing every byte complements the value. -/
theorem leValue_complement (bs : Bytes) (h : ∀ b ∈ bs, b < 256) :
    leValue (bs.map fun b => 255 - b) + leValue bs + 1 = 256 ^ bs.length := by
  induction bs with
  | nil => simp [leValue]
  | cons b bs ih =>
    have hb : b < 256 := h b (List.mem_cons_self _ _)
    have ih' := ih (fun x hx => h x (List.mem_cons_of_mem _ hx))
    simp only [List.map_cons, leValue, List.length_cons, pow_succ]
    omega

/-- The byte encoding modelled from the spec reads back as the number encoded. -/
theorem BigIntFromBytes_BigIntToBytes (x : Int) :
    types.BigIntFromBytes (types.BigIntToBytes x) = x := by
  unfold types.BigIntToBytes
  by_cases h0 : x = 0
  · simp [h0, types.BigIntFromBytes, leValue]
  · by_cases hpos : 0 < x
    · have hv : leValue (leBytes x.toNat) = x.toNat := leValue_leDigits _ _ (le_refl _)
      simp only [h0, hpos, if_false, if_true]
      split
      · simp only [types.BigIntFromBytes, List.getLastD_concat, leValue_append, hv, leValue]
        simp
        omega
      · rename_i hlast
        simp only [types.BigIntFromBytes, hlast, if_false, hv]
        omega
    · simp only [h0, hpos, if_false]
      generalize hN : (-x - 1).toNat = n
      have hxn : x = -(n : Int) - 1 := by omega
      have hbytes : ∀ b ∈ leBytes n, b < 256 := leDigits_lt _ _
      have hv : leValue (leBytes n) = n := leValue_leDigits _ _ (le_refl _)
      have hc := leValue_complement _ hbytes
      rw [hv] at hc
      have hc' : ((leValue ((leBytes n).map fun b => 255 - b) : Nat) : Int) + n + 1
          = 256 ^ (leBytes n).length := by exact_mod_cast hc
      split
      · rename_i hlast
        simp only [types.BigIntFromBytes, hlast, if_true, List.length_map]
        linarith
      · simp only [types.BigIntFromBytes, List.getLastD_concat, leValue_append, leValue,
          List.length_append, List.length_map, List.length_singleton, pow_succ]
        have h255 : (128 : Nat) ≤ 255 := by decide
        simp only [h255, if_true]
        push_cast
        linarith

/-- A 64-bit signed number is encoded in at most nine bytes. -/
theorem BigIntToBytes_length (x : Int) (hlo : -2 ^ 63 ≤ x) (hhi : x < 2 ^ 63) :
    (types.BigIntToBytes x).length ≤ 9 := by
  unfold types.BigIntToBytes
  by_cases h0 : x = 0
  · simp [h0]
  · by_cases hpos : 0 < x
    · have hl : (leBytes x.toNat).length ≤ 8 := leDigits_length 8 _ _ (by omega)
      simp only [h0, hpos, if_false, if_true]
      split
      · simp only [List.length_append, List.length_singleton]; omega
      · omega
    · have hl : (leBytes (-x - 1).toNat).length ≤ 8 := leDigits_length 8 _ _ (by omega)
      simp only [h0, hpos, if_false]
      split
      · simp only [List.length_map]; omega
      · simp only [List.length_append, List.length_map, List.length_singleton]; omega

/-- Reading back a payload of fewer than `0xFD` bytes written by
`WriteVarBytes`, whatever follows it in the reader. -/
theorem ReadVarBytes_WriteVarBytes (w value tail : Bytes) (hlen : value.length < 0xFD) :
    serialization.WriteVarBytes w value = (none, w ++ (value.length :: value)) ∧
    serialization.ReadVarBytes (value.length :: value ++ tail) = ((value, none), tail) := by
  constructor
  · simp [serialization.WriteVarBytes, serialization.WriteVarUint, hlen]
  · have h1 : value.length ≠ 0xFD := by omega
    have h2 : value.length ≠ 0xFE := by omega
    have h3 : value.length ≠ 0xFF := by omega
    simp [serialization.ReadVarBytes, serialization.ReadVarUint, readExact, h1, h2, h3]

/-! ## `WriteVarUint` and `ReadVarUint` -/

/-- The conversion `int64(value)` of a 64-bit value stays in the signed range. -/
theorem int64_range (v : Nat) : -2 ^ 63 ≤ int64 v ∧ int64 v < 2 ^ 63 := by
  unfold int64
  split <;> constructor <;> omega

/-- C1 (the code departs from the claim above `2^63 - 1`): what `ReadVarUint`
makes of the bytes written by `WriteVarUint` for a 64-bit value, with the
helper functions modelled from the spec.  A value below `2^63` is read back
exactly, consuming exactly the bytes written; a value from `2^63` to `2^64 - 1`
is written without error and then rejected with the value 0 and the error
"value should not be a negative number.". -/
theorem WriteVarUint_ReadVarUint (w tail : Bytes) (v : Nat) (hv : v < 2 ^ 64) :
    ∃ written, utils.WriteVarUint utils.specEnv w v = (none, w ++ written) ∧
      utils.ReadVarUint utils.specEnv (written ++ tail) =
        if v < 2 ^ 63 then ((v, none), tail)
        else ((0, some "value should not be a negative number."), tail) := by
  have hr := int64_range v
  have hlen : (types.BigIntToBytes (int64 v)).length < 0xFD :=
    lt_of_le_of_lt (BigIntToBytes_length _ hr.1 hr.2) (by decide)
  have hf := ReadVarBytes_WriteVarBytes w (types.BigIntToBytes (int64 v)) tail hlen
  refine ⟨(types.BigIntToBytes (int64 v)).length :: types.BigIntToBytes (int64 v), ?_, ?_⟩
  · simp only [utils.WriteVarUint, utils.specEnv, hf.1]
  · simp only [utils.ReadVarUint, utils.specEnv, hf.2, BigIntFromBytes_BigIntToBytes]
    by_cases hlt : v < 2 ^ 63
    · have hi : int64 v = (v : Int) := by
        unfold int64
        rw [Nat.mod_eq_of_lt hv, if_pos hlt]
      have hnn : ¬ ((v : Int) < 0) := by omega
      have hb : bigUint64 (v : Int) = v := by
        unfold bigUint64
        rw [Int.natAbs_ofNat, Nat.mod_eq_of_lt hv]
      simp only [hi, hnn, hlt, if_true, if_false, hb]
    · have hi : int64 v < 0 := by
        unfold int64
        rw [Nat.mod_eq_of_lt hv, if_neg hlt]
        omega
      simp only [hi, hlt, if_true, if_false]

/-- C1 at the failing input `2^64 - 1`: `WriteVarUint` writes it without
error, as the length-prefixed byte `0xFF`, and `ReadVarUint` applied to these
bytes returns the value 0 and the error instead of `2^64 - 1`. -/
theorem WriteVarUint_ReadVarUint_witness :
    utils.WriteVarUint utils.specEnv [] 18446744073709551615 = (none, [1, 255]) ∧
    utils.ReadVarUint utils.specEnv [1, 255] =
      ((0, some "value should not be a negative number."), []) := by
  obtain ⟨written, hw, hr⟩ :=
    WriteVarUint_ReadVarUint [] [] 18446744073709551615 (by norm_num)
  have hd : utils.WriteVarUint utils.specEnv [] 18446744073709551615 = (none, [1, 255]) := by
    decide
  have hwr : written = [1, 255] := by
    rw [hd] at hw
    simpa using (congrArg Prod.snd hw).symm
  subst hwr
  refine ⟨hd, ?_⟩
  simpa using hr

/-- C8: when the length-prefixed payload is fully read and the big integer
made from it is negative, `ReadVarUint` returns the value 0 with the error
"value should not be a negative number.", whatever the helper functions are. -/
theorem ReadVarUint_rejects_negative (env : utils.Env) (r payload rest : Bytes)
    (h : env.ReadVarBytes r = ((payload, none), rest))
    (hneg : env.BigIntFromBytes payload < 0) :
    utils.ReadVarUint env r = ((0, some "value should not be a negative number."), rest) := by
  simp only [utils.ReadVarUint, h, hneg, if_true]

/-- C8 on the two-byte encoding of `-128`, followed by one more byte. -/
theorem ReadVarUint_rejects_negative_witness :
    utils.ReadVarUint utils.specEnv [1, 128, 7] =
      ((0, some "value should not be a negative number."), [7]) :=
  ReadVarUint_rejects_negative utils.specEnv [1, 128, 7] [128] [7] (by decide) (by decide)

/-- C10: when the length-prefixed payload is fully read and the big integer `v`
made from it is at least `2^64`, `ReadVarUint` returns no error and the value
`v mod 2^64`, which is not `v`; and any reader whose payload makes a
non-negative integer congruent to `v` modulo `2^64` gives the same value. -/
theorem ReadVarUint_wraps_above_uint64 (env : utils.Env) (r payload rest : Bytes)
    (h : env.ReadVarBytes r = ((payload, none), rest))
    (hbig : 2 ^ 64 ≤ env.BigIntFromBytes payload) :
    utils.ReadVarUint env r = (((env.BigIntFromBytes payload).toNat % 2 ^ 64, none), rest) ∧
    (((env.BigIntFromBytes payload).toNat % 2 ^ 64 : Nat) : Int) ≠ env.BigIntFromBytes payload ∧
    (∀ r2 payload2 rest2, env.ReadVarBytes r2 = ((payload2, none), rest2) →
      0 ≤ env.BigIntFromBytes payload2 →
      env.BigIntFromBytes payload2 % 2 ^ 64 = env.BigIntFromBytes payload % 2 ^ 64 →
      (utils.ReadVarUint env r2).1 = (utils.ReadVarUint env r).1) := by
  have key : ∀ (q p t : Bytes), env.ReadVarBytes q = ((p, none), t) →
      0 ≤ env.BigIntFromBytes p →
      utils.ReadVarUint env q = (((env.BigIntFromBytes p).toNat % 2 ^ 64, none), t) := by
    intro q p t hq hp
    have hnn : ¬ (env.BigIntFromBytes p < 0) := by omega
    have hb : bigUint64 (env.BigIntFromBytes p) = (env.BigIntFromBytes p).toNat % 2 ^ 64 := by
      unfold bigUint64
      congr 1
      omega
    simp only [utils.ReadVarUint, hq, hnn, if_false, hb]
  refine ⟨key r payload rest h (by omega), by omega, ?_⟩
  intro r2 payload2 rest2 h2 hnn2 hmod
  rw [key r2 payload2 rest2 h2 hnn2, key r payload rest h (by omega)]
  have : (env.BigIntFromBytes payload2).toNat % 2 ^ 64 =
      (env.BigIntFromBytes payload).toNat % 2 ^ 64 := by omega
  simp only [this]

/-- C10 on the nine-byte encoding of `2^64 + 1`: it reads as 1, the same value
as the one-byte encoding of 1. -/
theorem ReadVarUint_wraps_above_uint64_witness :
    utils.ReadVarUint utils.specEnv [9, 1, 0, 0, 0, 0, 0, 0, 0, 1] = ((1, none), []) ∧
    (utils.ReadVarUint utils.specEnv [1, 1]).1 =
      (utils.ReadVarUint utils.specEnv [9, 1, 0, 0, 0, 0, 0, 0, 0, 1]).1 :=
  ⟨(ReadVarUint_wraps_above_uint64 utils.specEnv [9, 1, 0, 0, 0, 0, 0, 0, 0, 1]
      [1, 0, 0, 0, 0, 0, 0, 0, 1] [] (by decide) (by decide)).1,
   (ReadVarUint_wraps_above_uint64 utils.specEnv [9, 1, 0, 0, 0, 0, 0, 0, 0, 1]
      [1, 0, 0, 0, 0, 0, 0, 0, 1] [] (by decide) (by decide)).2.2
      [1, 1] [1] [] (by decide) (by decide) (by decide)⟩

/-! ## `WriteAddress` and `ReadAddress` -/

/-- C9: with the helper functions modelled from the spec, `WriteAddress` writes
the byte 20 followed by the 20 bytes of the address, `ReadAddress` applied to
these bytes returns the address without error and leaves what follows them,
and `ReadAddress` fails on every fully read payload whose length is not 20. -/
theorem WriteAddress_ReadAddress (a : common.Address) (w tail : Bytes) :
    utils.WriteAddress utils.specEnv w a = (none, w ++ (20 :: a.val)) ∧
    utils.ReadAddress utils.specEnv (20 :: a.val ++ tail) = ((a, none), tail) ∧
    (∀ r payload rest, serialization.ReadVarBytes r = ((payload, none), rest) →
      payload.length ≠ 20 →
      utils.ReadAddress utils.specEnv r =
        ((common.ADDRESS_EMPTY, some "MalformedAddress"), rest)) := by
  have hl : a.val.length = 20 := a.property
  have hf := ReadVarBytes_WriteVarBytes w a.val tail (by rw [hl]; decide)
  rw [hl] at hf
  refine ⟨?_, ?_, ?_⟩
  · simp only [utils.WriteAddress, utils.specEnv, hf.1]
  · simp only [utils.ReadAddress, utils.specEnv, hf.2, common.AddressParseFromBytes]
    rw [dif_pos a.property]
  · intro r payload rest h hne
    simp only [utils.ReadAddress, utils.specEnv, h, common.AddressParseFromBytes]
    rw [dif_neg (by simpa [common.ADDR_LEN] using hne)]

/-- C9 on the address made of the bytes 1 to 20, and on a payload of two
bytes. -/
theorem WriteAddress_ReadAddress_witness :
    utils.ReadAddress utils.specEnv
        (utils.WriteAddress utils.specEnv [] ⟨List.range' 1 20, by decide⟩).2 =
      ((⟨List.range' 1 20, by decide⟩, none), []) ∧
    utils.ReadAddress utils.specEnv [2, 5, 6] =
      ((common.ADDRESS_EMPTY, some "MalformedAddress"), []) := by
  have h := WriteAddress_ReadAddress ⟨List.range' 1 20, by decide⟩ [] []
  refine ⟨?_, h.2.2 [2, 5, 6] [5, 6] [] (by decide) (by decide)⟩
  rw [h.1]
  simpa using h.2.1

end ZeepinChain
